import Mathlib

/-!
Verification of the fossa-nx concurrent scan orchestration engine.

The Go sources are shallowly embedded below:
* `internal/nx/changes.go` — change detection (`GetChangedFiles`,
  `GetProjectGraph`, `GetChangedProjectsUsingGraph`, `ShouldSkipProject`);
* `internal/nx` project listing (`GetProjectsFromList`);
* `cmd/fossa-nx/main.go` — `Stats` aggregation (`initialize`, `recordResult`,
  `print`), the collector loop of `processProjectsOptimized`, and the
  exit-code logic of the root command.

External commands (git, yarn nx) are modelled as oracle parameters giving the
outcome of each invocation; the `sync.Once` memoization is modelled by an
explicit cache state threaded through the functions.  Strings are Lean
`String`s; the byte-level Go operations on them are embedded as structural
functions over `String.data` so that all definitions evaluate by kernel
reduction.
-/

namespace FossaNx

/-- `ProjectNode` from changes.go: a project name together with its
`Data.Root` directory. -/
structure ProjectNode where
  name : String
  root : String
deriving DecidableEq

/-- Go `strings.ReplaceAll(s, "\\", "/")` for the one-character pattern:
replace every backslash by a forward slash. -/
def normalizeSlashes (s : String) : String :=
  ⟨s.data.map fun c => if c = '\\' then '/' else c⟩

/-- The per-node test of `GetChangedProjectsUsingGraph`:
`strings.HasPrefix(file, projectRoot+"/") || file == projectRoot`. -/
def fileMatchesProject (projectRoot file : String) : Bool :=
  List.isPrefixOf (projectRoot.data ++ ['/']) file.data || file.data == projectRoot.data

/-- `GetChangedProjectsUsingGraph` (changes.go lines 138–177), with the two
memoized queries already resolved into `changedFiles` and `graph`.  The Go
code accumulates names in a `map[string]bool` (a set, iterated in
unspecified order); we model the set by the list of names of the matching
nodes — membership in it is the specified content. -/
def getChangedProjectsUsingGraph (changedFiles : List String) (graph : List ProjectNode) : List String :=
  if changedFiles.isEmpty then []
  else
    (graph.filter fun node =>
      changedFiles.any fun file => fileMatchesProject (normalizeSlashes node.root) file).map
      fun node => node.name

/-- Structural split of a character list at every occurrence of `sep`
(Go `strings.Split` semantics for a one-character separator: splitting the
empty string yields one empty field). -/
def splitCharsOn (sep : Char) : List Char → List (List Char)
  | [] => [[]]
  | c :: cs =>
    if c = sep then [] :: splitCharsOn sep cs
    else
      match splitCharsOn sep cs with
      | [] => [[c]]
      | t :: ts => (c :: t) :: ts

/-- Go `strings.TrimSpace`: drop leading and trailing whitespace.  (The
Unicode space classes beyond ASCII whitespace are not modelled; the claims
only involve ASCII input.) -/
def trimSpace (s : String) : String :=
  ⟨((s.data.dropWhile Char.isWhitespace).reverse.dropWhile Char.isWhitespace).reverse⟩

/-- The loop body of `GetProjectsFromList`: skip an entry that trimmed to the
empty string, otherwise append it to the valid list when the universe
contains it (`projectMap[trimmedProject]`) and to the invalid list when it
does not. -/
def projectListStep (univ : List String) (acc : List String × List String) (p : String) :
    List String × List String :=
  if p = "" then acc
  else if univ.contains p then (acc.1 ++ [p], acc.2)
  else (acc.1, acc.2 ++ [p])

/-- `GetProjectsFromList` (projects file, lines 238–273): partition a
comma-separated list of requested names against the all-projects universe.
The initial `GetProjects("", "", true)` call is supplied as an `Except`
parameter (`allProjects`); its failure is propagated. -/
def getProjectsFromList (allProjects : Except String (List String)) (projectsList : String) :
    Except String (List String × List String) :=
  match allProjects with
  | .error e => .error ("failed to get all projects: " ++ e)
  | .ok univ =>
      let requested := (splitCharsOn ',' projectsList.data).map fun e => trimSpace ⟨e⟩
      .ok (requested.foldl (projectListStep univ) ([], []))

/-- The requested entries after trimming, with empty entries dropped — the
entries `GetProjectsFromList` actually classifies. -/
def cleanedEntries (projectsList : String) : List String :=
  (((splitCharsOn ',' projectsList.data).map fun e => trimSpace ⟨e⟩).filter fun p => p ≠ "")

/-- The feeder goroutine of `processProjectsOptimized` (main.go lines
507–519): it sends the resolved projects in order into `projectCh`, stopping
early — after `k` sends — when the deadline context fires. -/
def enqueuedProjects (projects : List String) (k : Nat) : List String :=
  projects.take k

/-- `git diff` argument selection of `GetChangedFiles` (changes.go lines
40–48). -/
def gitDiffArgs (base head : String) : List String :=
  if base ≠ "" ∧ head ≠ "" then ["diff", "--name-only", base ++ ".." ++ head]
  else if base ≠ "" then ["diff", "--name-only", base]
  else ["diff", "--name-only", "HEAD"]

/-- Parsing of the `git diff --name-only` output (changes.go lines 56–75):
trim the whole output, return `[]` when empty, otherwise split into lines,
trim each, drop empties and normalize path separators. -/
def parseChangedFilesOutput (output : String) : List String :=
  let outputStr := trimSpace output
  if outputStr = "" then []
  else
    ((splitCharsOn '\n' outputStr.data).map fun l => trimSpace ⟨l⟩).foldl
      (fun acc line => if line = "" then acc else acc ++ [normalizeSlashes line]) []

/-- The memoization state of `GetChangedFiles`: `changedFilesOnce` together
with `changedFilesCache` (a nil Go slice is modelled as `[]`). -/
structure ChangedFilesState where
  onceDone : Bool
  cache : List String
deriving DecidableEq

/-- Process start: `sync.Once` not yet consumed, cache nil. -/
def initialChangedFilesState : ChangedFilesState := ⟨false, []⟩

/-- `GetChangedFiles` (changes.go lines 34–86).  The external `git`
invocation is the oracle `run`, mapping the argument list to the command's
combined outcome.  The `sync.Once` body runs only when `onceDone` is false;
the local `err` variable is reported only by the call that ran the body. -/
def getChangedFiles (run : List String → Except String String) (base head : String)
    (s : ChangedFilesState) : Except String (List String) × ChangedFilesState :=
  if s.onceDone then (.ok s.cache, s)
  else
    match run (gitDiffArgs base head) with
    | .error e => (.error ("failed to get changed files: " ++ e), ⟨true, s.cache⟩)
    | .ok output =>
        let files := parseChangedFilesOutput output
        (.ok files, ⟨true, files⟩)

/-- The memoization state of `GetProjectGraph`, instrumented with counters
for the external graph queries: `primaryQueries` counts `yarn nx graph`
invocations and `fallbackQueries` counts `yarn nx dep-graph` invocations. -/
structure ProjectGraphState where
  onceDone : Bool
  cache : List ProjectNode
  primaryQueries : Nat
  fallbackQueries : Nat
deriving DecidableEq

/-- Process start: `sync.Once` not yet consumed, cache nil, no queries run. -/
def initialProjectGraphState : ProjectGraphState := ⟨false, [], 0, 0⟩

/-- `GetProjectGraph` (changes.go lines 89–135).  Oracles: `tempFile` is the
outcome of `os.CreateTemp`; `primaryRun` and `fallbackRun` are the outcomes
of the `yarn nx graph` and `yarn nx dep-graph` commands; `readParse` is the
combined outcome of reading the generated file and JSON-decoding it into the
node list.  As in the Go code, the `sync.Once` is consumed even when the
body fails, and the per-call `err` variable is nil for every later call. -/
def getProjectGraph (tempFile : Except String Unit) (primaryRun fallbackRun : Except String Unit)
    (readParse : Except String (List ProjectNode)) (s : ProjectGraphState) :
    Except String (List ProjectNode) × ProjectGraphState :=
  if s.onceDone then (.ok s.cache, s)
  else
    match tempFile with
    | .error e =>
        (.error ("failed to create temporary file: " ++ e), { s with onceDone := true })
    | .ok _ =>
        let s1 : ProjectGraphState := { s with primaryQueries := s.primaryQueries + 1 }
        match primaryRun with
        | .ok _ =>
            match readParse with
            | .error e => (.error ("failed to read or parse project graph: " ++ e),
                { s1 with onceDone := true })
            | .ok graph => (.ok graph, { s1 with onceDone := true, cache := graph })
        | .error _ =>
            let s2 : ProjectGraphState := { s1 with fallbackQueries := s1.fallbackQueries + 1 }
            match fallbackRun with
            | .error e => (.error ("failed to get project graph: " ++ e),
                { s2 with onceDone := true })
            | .ok _ =>
                match readParse with
                | .error e => (.error ("failed to read or parse project graph: " ++ e),
                    { s2 with onceDone := true })
                | .ok graph => (.ok graph, { s2 with onceDone := true, cache := graph })

/-- `ShouldSkipProject` (changes.go lines 180–207).  The
`GetChangedProjectsUsingGraph(base, head)` call is supplied as the `Except`
parameter `changedProjects`.  The Go function returns `(bool, error)`; every
return site carries a nil error, modelled as `none`. -/
def shouldSkipProject (projectName base head : String) (forceAll : Bool)
    (changedProjects : Except String (List String)) : Bool × Option String :=
  if forceAll then (false, none)
  else if base = "" ∧ head = "" then (false, none)
  else
    match changedProjects with
    | .error _ => (false, none)
    | .ok changed => (!changed.contains projectName, none)

/-- `Stats` (main.go lines 34–43).  The Go counters are `int32`/`int64`
machine integers updated atomically; the counts and the nanosecond duration
fields only ever accumulate elapsed times from `time.Since`, so they are
modelled as `ℕ` (no overflow in scope).  `vulnCount` enters through a signed
comparison, so vulnerabilities stay in `ℤ`. -/
structure Stats where
  totalProjects : Nat
  successful : Nat
  failed : Nat
  vulnerabilities : Int
  totalDuration : Nat
  maxDuration : Nat
  minDuration : Nat
deriving DecidableEq

/-- `int64(time.Hour)` in nanoseconds, the sentinel `initialize` stores into
`minDuration`. -/
def hourNanos : Nat := 3600000000000

/-- The stats initialization routine of main.go lines 45–54: set
`totalProjects`, zero the counters, and store the large sentinel into
`minDuration`. -/
def Stats.initStats (projectCount : Nat) : Stats :=
  { totalProjects := projectCount, successful := 0, failed := 0, vulnerabilities := 0,
    totalDuration := 0, maxDuration := 0, minDuration := hourNanos }

/-- `Stats.recordResult` (main.go lines 56–88).  The compare-and-swap loop
updates `maxDuration` exactly when the new duration exceeds it; the
mutex-guarded branch updates `minDuration` exactly when the new duration is
below it. -/
def Stats.recordResult (s : Stats) (success : Bool) (durationNanos : Nat) (vulnCount : Int) :
    Stats :=
  { totalProjects := s.totalProjects
    successful := if success then s.successful + 1 else s.successful
    failed := if success then s.failed else s.failed + 1
    vulnerabilities := if vulnCount > 0 then s.vulnerabilities + vulnCount else s.vulnerabilities
    totalDuration := s.totalDuration + durationNanos
    maxDuration := if s.maxDuration < durationNanos then durationNanos else s.maxDuration
    minDuration := if durationNanos < s.minDuration then durationNanos else s.minDuration }

/-- The fields `Stats.print` (main.go lines 90–134) reports: the average is
`totalDuration / (successful + failed)` (0 when no results), and the
min/max durations are printed only when at least one result was recorded. -/
structure StatsReport where
  total : Nat
  successful : Nat
  failed : Nat
  vulnerabilities : Int
  avgDuration : Nat
  minMax : Option (Nat × Nat)
deriving DecidableEq

/-- `Stats.print` as a report value. -/
def Stats.printReport (s : Stats) : StatsReport :=
  { total := s.totalProjects, successful := s.successful, failed := s.failed,
    vulnerabilities := s.vulnerabilities,
    avgDuration :=
      if 0 < s.successful + s.failed then s.totalDuration / (s.successful + s.failed) else 0,
    minMax :=
      if 0 < s.successful + s.failed then some (s.minDuration, s.maxDuration) else none }

/-- One `recordResult` input: outcome flag, elapsed nanoseconds, and
`len(result.Issues)`. -/
structure RecordInput where
  success : Bool
  durationNanos : Nat
  vulnCount : Int
deriving DecidableEq

/-- Folding step for a sequence of `recordResult` calls. -/
def recordStep (s : Stats) (r : RecordInput) : Stats :=
  s.recordResult r.success r.durationNanos r.vulnCount

/-- A sequence of `recordResult` calls applied in order. -/
def applyRecords (l : List RecordInput) (s : Stats) : Stats :=
  l.foldl recordStep s

/-- `models.Result` restricted to the fields the collector consumes:
`result.Error == nil` becomes `success`, `result.Duration` the nanosecond
count, `len(result.Issues)` the vulnerability count. -/
structure ScanResult where
  project : String
  success : Bool
  durationNanos : Nat
  vulnCount : Int
deriving DecidableEq

/-- The `recordResult` arguments extracted from a collected result
(main.go line 524). -/
def resultRecord (r : ScanResult) : RecordInput :=
  ⟨r.success, r.durationNanos, r.vulnCount⟩

/-- The collector loop of `processProjectsOptimized` (main.go lines
522–537): for each result received, record it in the stats and append it to
the result slice.  `arrival` is the order in which completed results reach
`resultCh` (completion order, decided by the scheduler). -/
def collectResults (arrival : List ScanResult) (stats : Stats) : Stats × List ScanResult :=
  arrival.foldl (fun acc r => (recordStep acc.1 (resultRecord r), acc.2 ++ [r])) (stats, [])

/-- The single-threaded reference computation for the final `Stats` over a
multiset of `recordResult` inputs, per the spec: outcome counts, duration
sum, duration maximum, and the sum of the positive vulnerability counts —
except that `minDuration` is the minimum of the durations *and the one-hour
initialization sentinel*, which is what the code computes. -/
def referenceStats (total : Nat) (l : List RecordInput) : Stats :=
  { totalProjects := total
    successful := (l.filter fun r => r.success).length
    failed := (l.filter fun r => !r.success).length
    vulnerabilities := ((l.map fun r => r.vulnCount).filter fun v => v > 0).sum
    totalDuration := (l.map fun r => r.durationNanos).sum
    maxDuration := (l.map fun r => r.durationNanos).foldl max 0
    minDuration := (l.map fun r => r.durationNanos).foldl min hourNanos }

/-- Exit behaviour of the root command's `Run` (main.go lines 324–329 and
388–408) plus the surrounding `Execute`: a failed project resolution calls
`log.Fatalf` (exit 1) before any dispatch; otherwise the pool runs to
completion, the notification collaborators run with their errors only
logged, and the process exits 1 iff `stats.failed > 0`, else 0.  Returns
the exit code together with the log lines contributed by errors. -/
def runCommandExit (resolution : Except String (List String)) (outcome : String → ScanResult)
    (emailErr githubIssuesErr githubStatusErr : Option String) : Nat × List String :=
  match resolution with
  | .error e => (1, ["Error getting projects: " ++ e])
  | .ok projects =>
      let results := projects.map outcome
      let stats := (collectResults results (Stats.initStats projects.length)).1
      let logs :=
        (match emailErr with
          | some e => ["Error sending email report: " ++ e]
          | none => []) ++
        (match githubIssuesErr with
          | some e => ["Error creating GitHub issues: " ++ e]
          | none => []) ++
        (match githubStatusErr with
          | some e => ["Error creating GitHub commit status: " ++ e]
          | none => [])
      (if 0 < stats.failed then 1 else 0, logs)

/-- C1: a node's project is marked affected by `GetChangedProjectsUsingGraph`
if and only if some changed file path equals the node's normalized root or
begins with that root followed by `/` — a path-boundary match, not a naive
string-prefix match.  (Node names are the keys of the Go graph map, hence
pairwise distinct.) -/
theorem c1_affected_iff_path_boundary
    (graph : List ProjectNode) (changedFiles : List String) (node : ProjectNode)
    (hmem : node ∈ graph) (hnames : (graph.map ProjectNode.name).Nodup) :
    node.name ∈ getChangedProjectsUsingGraph changedFiles graph ↔
      ∃ file ∈ changedFiles,
        file = normalizeSlashes node.root ∨
          List.isPrefixOf ((normalizeSlashes node.root).data ++ ['/']) file.data := by
  unfold getChangedProjectsUsingGraph
  by_cases hempty : changedFiles.isEmpty
  · rw [List.isEmpty_iff] at hempty
    subst hempty
    simp
  · rw [if_neg hempty, List.mem_map]
    constructor
    · rintro ⟨n, hn', hname⟩
      rw [List.mem_filter] at hn'
      obtain ⟨hn, hany⟩ := hn'
      have hnn : n = node := List.inj_on_of_nodup_map hnames hn hmem hname
      subst hnn
      rw [List.any_eq_true] at hany
      obtain ⟨file, hfile, hmatch⟩ := hany
      refine ⟨file, hfile, ?_⟩
      unfold fileMatchesProject at hmatch
      rw [Bool.or_eq_true, beq_iff_eq] at hmatch
      rcases hmatch with h | h
      · exact Or.inr h
      · exact Or.inl (by apply String.ext; exact h)
    · rintro ⟨file, hfile, hcond⟩
      refine ⟨node, ?_, rfl⟩
      rw [List.mem_filter]
      refine ⟨hmem, ?_⟩
      rw [List.any_eq_true]
      refine ⟨file, hfile, ?_⟩
      unfold fileMatchesProject
      rw [Bool.or_eq_true, beq_iff_eq]
      rcases hcond with h | h
      · exact Or.inr (congrArg String.data h)
      · exact Or.inl h

/-- Witness for C1 at the spec's prefix-boundary test: node
`{name := "app1", root := "apps/app1"}`, changed file `"apps/app1/src/x.ts"`
marks `app1` affected, while `"apps/app1b/x.ts"` does not. -/
theorem c1_affected_iff_path_boundary_witness :
    "app1" ∈ getChangedProjectsUsingGraph ["apps/app1/src/x.ts"] [⟨"app1", "apps/app1"⟩] ∧
      "app1" ∉ getChangedProjectsUsingGraph ["apps/app1b/x.ts"] [⟨"app1", "apps/app1"⟩] := by
  constructor
  · exact (c1_affected_iff_path_boundary [⟨"app1", "apps/app1"⟩] ["apps/app1/src/x.ts"]
      ⟨"app1", "apps/app1"⟩ (by decide) (by decide)).mpr
      ⟨"apps/app1/src/x.ts", by decide, by decide⟩
  · intro hmemres
    have h := (c1_affected_iff_path_boundary [⟨"app1", "apps/app1"⟩] ["apps/app1b/x.ts"]
      ⟨"app1", "apps/app1"⟩ (by decide) (by decide)).mp hmemres
    revert h
    decide

/-- The `GetProjectsFromList` loop is an order-preserving partition: starting
from accumulators `(v, i)`, the valid side extends `v` with the non-empty
entries found in the universe, in input order, and the invalid side extends
`i` with the non-empty entries not found, in input order. -/
theorem projectList_loop_eq (univ : List String) (entries v i : List String) :
    entries.foldl (projectListStep univ) (v, i) =
      (v ++ ((entries.filter fun p => p ≠ "").filter fun p => p ∈ univ),
       i ++ ((entries.filter fun p => p ≠ "").filter fun p => p ∉ univ)) := by
  induction entries generalizing v i with
  | nil => simp
  | cons p ps ih =>
    rw [List.foldl_cons]
    by_cases hp : p = ""
    · subst hp
      have hstep : projectListStep univ (v, i) "" = (v, i) := rfl
      rw [hstep, ih]
      simp
    · by_cases hm : p ∈ univ
      · have hc : univ.contains p = true := List.elem_iff.mpr hm
        have hstep : projectListStep univ (v, i) p = (v ++ [p], i) := by
          unfold projectListStep
          rw [if_neg hp, if_pos hc]
        rw [hstep, ih]
        simp [hp, hm]
      · have hc : ¬univ.contains p = true := fun hcon => hm (List.elem_iff.mp hcon)
        have hstep : projectListStep univ (v, i) p = (v, i ++ [p]) := by
          unfold projectListStep
          rw [if_neg hp, if_neg hc]
        rw [hstep, ih]
        simp [hp, hm]

/-- C6: `GetProjectsFromList` partitions the comma-separated entries by
membership in the universe, preserving input order within each output list
and silently dropping entries that trim to the empty string; in particular
`"app1,app2,ghost"` against universe `{app1, app2}` yields
`valid = [app1, app2]`, `invalid = [ghost]`. -/
theorem c6_explicit_list_partition (input : String) (univ : List String) :
    getProjectsFromList (.ok univ) input =
      .ok ((cleanedEntries input).filter fun p => p ∈ univ,
           (cleanedEntries input).filter fun p => p ∉ univ) ∧
    getProjectsFromList (.ok ["app1", "app2"]) "app1,app2,ghost" =
      .ok (["app1", "app2"], ["ghost"]) := by
  constructor
  · have hdef : getProjectsFromList (.ok univ) input =
        .ok (((splitCharsOn ',' input.data).map fun e => trimSpace ⟨e⟩).foldl
          (projectListStep univ) ([], [])) := rfl
    rw [hdef, projectList_loop_eq]
    unfold cleanedEntries
    simp
  · rfl

/-- C2 counterexample: the claim that the valid output of
`GetProjectsFromList` contains each project at most once fails on the input
`"app1,app1"` against universe `{app1}` — the name appears twice in the
valid output and is therefore enqueued twice by the feeder. -/
theorem c2_counterexample :
    getProjectsFromList (.ok ["app1"]) "app1,app1" = .ok (["app1", "app1"], []) ∧
      (["app1", "app1"] : List String).count "app1" = 2 ∧
      (enqueuedProjects ["app1", "app1"] 2).count "app1" = 2 :=
  ⟨rfl, by decide, by decide⟩

/-- C2 amended: `GetProjectsFromList` does not deduplicate — the valid
output is exactly the ordered list of trimmed non-empty entries lying in
the universe, one entry per occurrence, so a repeated valid name is
enqueued once per occurrence; whenever the trimmed non-empty entries are
pairwise distinct, the valid output contains no two equal entries and the
feeder enqueues at most one scan job per project. -/
theorem c2_valid_nodup_of_distinct_entries (input : String) (univ valid invalid : List String)
    (hres : getProjectsFromList (.ok univ) input = .ok (valid, invalid)) :
    valid = ((cleanedEntries input).filter fun p => p ∈ univ) ∧
      ((cleanedEntries input).Nodup →
        valid.Nodup ∧ ∀ p k, ((enqueuedProjects valid k).count p) ≤ 1) := by
  have hchar : valid = (cleanedEntries input).filter fun p => p ∈ univ := by
    have hdef : getProjectsFromList (.ok univ) input =
        .ok (((splitCharsOn ',' input.data).map fun e => trimSpace ⟨e⟩).foldl
          (projectListStep univ) ([], [])) := rfl
    rw [hdef, projectList_loop_eq] at hres
    simp only [List.nil_append, Except.ok.injEq, Prod.mk.injEq] at hres
    unfold cleanedEntries
    exact hres.1.symm
  refine ⟨hchar, fun hdistinct => ?_⟩
  have hnd : valid.Nodup := by
    rw [hchar]
    exact hdistinct.filter _
  refine ⟨hnd, fun p k => ?_⟩
  calc (enqueuedProjects valid k).count p ≤ valid.count p :=
        (List.take_sublist k valid).count_le p
    _ ≤ 1 := List.nodup_iff_count_le_one.mp hnd p

/-- Witness for C2's amended claim on the distinct explicit list
`"app1,app2"` against universe `{app1, app2}`. -/
theorem c2_valid_nodup_witness :
    (["app1", "app2"] : List String) =
        ((cleanedEntries "app1,app2").filter fun p => p ∈ (["app1", "app2"] : List String)) ∧
      (["app1", "app2"] : List String).Nodup ∧
      (enqueuedProjects ["app1", "app2"] 1).count "app1" ≤ 1 :=
  ⟨(c2_valid_nodup_of_distinct_entries "app1,app2" ["app1", "app2"] ["app1", "app2"] []
      (by rfl)).1,
   ((c2_valid_nodup_of_distinct_entries "app1,app2" ["app1", "app2"] ["app1", "app2"] []
      (by rfl)).2 (by decide)).1,
   ((c2_valid_nodup_of_distinct_entries "app1,app2" ["app1", "app2"] ["app1", "app2"] []
      (by rfl)).2 (by decide)).2 "app1" 1⟩

/-- C3: `ShouldSkipProject` never skips when `forceAll` is set or both
revision markers are empty; when the affected-set computation fails it is
fail-open (no skip, nil error); otherwise it skips exactly the projects not
in the affected set, always with a nil error. -/
theorem c3_should_skip_policy (projectName base head : String) (forceAll : Bool)
    (res : Except String (List String)) :
    (forceAll = true →
      shouldSkipProject projectName base head forceAll res = (false, none)) ∧
    (base = "" → head = "" →
      shouldSkipProject projectName base head forceAll res = (false, none)) ∧
    (∀ e, res = .error e →
      shouldSkipProject projectName base head forceAll res = (false, none)) ∧
    (forceAll = false → ¬(base = "" ∧ head = "") → ∀ changed, res = .ok changed →
      ((shouldSkipProject projectName base head forceAll res).1 = true ↔
          projectName ∉ changed) ∧
        (shouldSkipProject projectName base head forceAll res).2 = none) := by
  refine ⟨?_, ?_, ?_, ?_⟩
  · intro hf
    unfold shouldSkipProject
    rw [if_pos hf]
  · intro hb hh
    unfold shouldSkipProject
    by_cases hf : forceAll = true
    · rw [if_pos hf]
    · rw [if_neg hf, if_pos ⟨hb, hh⟩]
  · intro e he
    subst he
    unfold shouldSkipProject
    by_cases hf : forceAll = true
    · rw [if_pos hf]
    · rw [if_neg hf]
      by_cases hbh : base = "" ∧ head = ""
      · rw [if_pos hbh]
      · rw [if_neg hbh]
  · intro hf hbh changed hok
    subst hok
    unfold shouldSkipProject
    rw [hf]
    rw [if_neg (by simp), if_neg hbh]
    constructor
    · simp only [Bool.not_eq_true']
      rw [← Bool.not_eq_true]
      constructor
      · intro hnc hmem
        exact hnc (List.elem_iff.mpr hmem)
      · intro hnm hc
        exact hnm (List.elem_iff.mp hc)
    · rfl

/-- Witness for C3: with `forceAll = false`, `base = "main"`, `head = "dev"`
and affected set `{app2}`, the project `app1` is skipped with a nil error. -/
theorem c3_should_skip_policy_witness :
    ((shouldSkipProject "app1" "main" "dev" false (.ok ["app2"])).1 = true ↔
        ("app1" : String) ∉ (["app2"] : List String)) ∧
      (shouldSkipProject "app1" "main" "dev" false (.ok ["app2"])).2 = none :=
  (c3_should_skip_policy "app1" "main" "dev" false (.ok ["app2"])).2.2.2 rfl
    (by decide) ["app2"] rfl

/-- Once the `sync.Once` of `GetChangedFiles` is consumed, every later call
returns the cache with a nil error and leaves the state unchanged. -/
theorem getChangedFiles_done (run : List String → Except String String) (base head : String)
    (s : ChangedFilesState) (hd : s.onceDone = true) :
    getChangedFiles run base head s = (.ok s.cache, s) := by
  unfold getChangedFiles
  rw [if_pos hd]

/-- Once the `sync.Once` of `GetProjectGraph` is consumed, every later call
returns the cache with a nil error and leaves the state unchanged. -/
theorem getProjectGraph_done (t p f : Except String Unit)
    (rp : Except String (List ProjectNode)) (s : ProjectGraphState) (hd : s.onceDone = true) :
    getProjectGraph t p f rp s = (.ok s.cache, s) := by
  unfold getProjectGraph
  rw [if_pos hd]

/-- A first call to `GetChangedFiles` that fails consumes the `sync.Once`
and leaves the nil cache in place. -/
theorem getChangedFiles_error_state (run : List String → Except String String)
    (base head : String) (e : String)
    (hfail : (getChangedFiles run base head initialChangedFilesState).1 = .error e) :
    (getChangedFiles run base head initialChangedFilesState).2 = ⟨true, []⟩ := by
  unfold getChangedFiles initialChangedFilesState at *
  cases hrun : run (gitDiffArgs base head) with
  | error msg => simp [hrun]
  | ok output => simp [hrun] at hfail

/-- A first call to `GetProjectGraph` that fails consumes the `sync.Once`
and leaves the nil cache in place. -/
theorem getProjectGraph_error_state (t p f : Except String Unit)
    (rp : Except String (List ProjectNode)) (e : String)
    (hfail : (getProjectGraph t p f rp initialProjectGraphState).1 = .error e) :
    (getProjectGraph t p f rp initialProjectGraphState).2.onceDone = true ∧
      (getProjectGraph t p f rp initialProjectGraphState).2.cache = [] := by
  unfold getProjectGraph initialProjectGraphState at *
  cases t with
  | error e1 => simp
  | ok u =>
    cases p with
    | ok u2 =>
      cases rp with
      | error e2 => simp
      | ok g => simp at hfail
    | error e3 =>
      cases f with
      | error e4 => simp
      | ok u3 =>
        cases rp with
        | error e5 => simp
        | ok g => simp at hfail

/-- C4: a failed first memoized query is reported only once — the
`sync.Once` is consumed while the error variable is per-call, so every
subsequent `GetChangedFiles` or `GetProjectGraph` call, with any arguments
and any behaviour of the external commands, returns a nil error together
with the nil (empty) cached value. -/
theorem c4_failed_query_error_reported_once
    (run : List String → Except String String) (base head : String) (e : String)
    (t p f : Except String Unit) (rp : Except String (List ProjectNode)) (eg : String)
    (hfail : (getChangedFiles run base head initialChangedFilesState).1 = .error e)
    (hgfail : (getProjectGraph t p f rp initialProjectGraphState).1 = .error eg) :
    (∀ (run2 : List String → Except String String) (base2 head2 : String),
      getChangedFiles run2 base2 head2 (getChangedFiles run base head initialChangedFilesState).2 =
        (.ok [], (getChangedFiles run base head initialChangedFilesState).2)) ∧
    (∀ (t2 p2 f2 : Except String Unit) (rp2 : Except String (List ProjectNode)),
      getProjectGraph t2 p2 f2 rp2 (getProjectGraph t p f rp initialProjectGraphState).2 =
        (.ok [], (getProjectGraph t p f rp initialProjectGraphState).2)) := by
  constructor
  · intro run2 base2 head2
    have hstate := getChangedFiles_error_state run base head e hfail
    rw [hstate]
    exact getChangedFiles_done run2 base2 head2 ⟨true, []⟩ rfl
  · intro t2 p2 f2 rp2
    obtain ⟨hdone, hcache⟩ := getProjectGraph_error_state t p f rp eg hgfail
    have h := getProjectGraph_done t2 p2 f2 rp2
      (getProjectGraph t p f rp initialProjectGraphState).2 hdone
    rw [hcache] at h
    exact h

/-- Witness for C4: the `git diff` call fails with `boom` and the `yarn nx`
graph queries both fail; the immediately following calls return `ok []`
with no error. -/
theorem c4_failed_query_error_reported_once_witness :
    (getChangedFiles (fun args => .ok (String.intercalate " " args)) "b2" "h2"
        (getChangedFiles (fun _ => .error "boom") "b" "h" initialChangedFilesState).2 =
      (.ok [], (getChangedFiles (fun _ => .error "boom") "b" "h" initialChangedFilesState).2)) ∧
    (getProjectGraph (.ok ()) (.ok ()) (.ok ()) (.ok [⟨"app1", "apps/app1"⟩])
        (getProjectGraph (.ok ()) (.error "x") (.error "y") (.ok [])
          initialProjectGraphState).2 =
      (.ok [], (getProjectGraph (.ok ()) (.error "x") (.error "y") (.ok [])
          initialProjectGraphState).2)) :=
  ⟨(c4_failed_query_error_reported_once (fun _ => .error "boom") "b" "h"
      "failed to get changed files: boom" (.ok ()) (.error "x") (.error "y") (.ok [])
      "failed to get project graph: y" rfl rfl).1 (fun args => .ok (String.intercalate " " args))
      "b2" "h2",
   (c4_failed_query_error_reported_once (fun _ => .error "boom") "b" "h"
      "failed to get changed files: boom" (.ok ()) (.error "x") (.error "y") (.ok [])
      "failed to get project graph: y" rfl rfl).2 (.ok ()) (.ok ()) (.ok ())
      (.ok [⟨"app1", "apps/app1"⟩])⟩

/-- C5: the project graph is memoized — a successful first call invokes the
primary external query exactly once and a second call returns the cached
graph without touching either query counter — and when the primary query
fails, exactly one fallback query is attempted, the error surfacing only
when the fallback fails too. -/
theorem c5_graph_memoized_single_fallback (g : List ProjectNode) (fb : Except String Unit)
    (t2 p2 f2 : Except String Unit) (rp2 : Except String (List ProjectNode))
    (ep : String) (fbF : Except String Unit) (rpF : Except String (List ProjectNode)) :
    getProjectGraph (.ok ()) (.ok ()) fb (.ok g) initialProjectGraphState =
      (.ok g, ⟨true, g, 1, 0⟩) ∧
    getProjectGraph t2 p2 f2 rp2 (⟨true, g, 1, 0⟩ : ProjectGraphState) =
      (.ok g, ⟨true, g, 1, 0⟩) ∧
    ((getProjectGraph (.ok ()) (.error ep) fbF rpF initialProjectGraphState).2.primaryQueries = 1 ∧
      (getProjectGraph (.ok ()) (.error ep) fbF rpF initialProjectGraphState).2.fallbackQueries = 1) ∧
    (∀ ef, fbF = .error ef →
      (getProjectGraph (.ok ()) (.error ep) fbF rpF initialProjectGraphState).1 =
        .error ("failed to get project graph: " ++ ef)) := by
  refine ⟨rfl, getProjectGraph_done t2 p2 f2 rp2 ⟨true, g, 1, 0⟩ rfl, ?_, ?_⟩
  · cases fbF with
    | error ef => exact ⟨rfl, rfl⟩
    | ok u =>
      cases rpF with
      | error er => exact ⟨rfl, rfl⟩
      | ok g2 => exact ⟨rfl, rfl⟩
  · intro ef hef
    subst hef
    rfl

/-- Witness for C5's fallback clause with both graph queries failing. -/
theorem c5_graph_memoized_single_fallback_witness :
    (getProjectGraph (.ok ()) (.error "x") (.error "y") (.ok [])
        initialProjectGraphState).1 = .error ("failed to get project graph: " ++ "y") :=
  (c5_graph_memoized_single_fallback [] (.ok ()) (.ok ()) (.ok ()) (.ok ()) (.ok []) "x"
    (.error "y") (.ok [])).2.2.2 "y" rfl

/-- The compare-and-swap loop's effect is the binary maximum. -/
theorem ite_lt_eq_max (a b : Nat) : (if a < b then b else a) = max a b := by
  by_cases h : a < b
  · rw [if_pos h, Nat.max_eq_right (Nat.le_of_lt h)]
  · rw [if_neg h, Nat.max_eq_left (Nat.le_of_not_lt h)]

/-- The mutex-guarded update's effect is the binary minimum. -/
theorem ite_lt_eq_min (a b : Nat) : (if b < a then b else a) = min a b := by
  by_cases h : b < a
  · rw [if_pos h, Nat.min_eq_right (Nat.le_of_lt h)]
  · rw [if_neg h, Nat.min_eq_left (Nat.le_of_not_lt h)]

theorem applyRecords_totalProjects (l : List RecordInput) (s : Stats) :
    (applyRecords l s).totalProjects = s.totalProjects := by
  induction l generalizing s with
  | nil => rfl
  | cons r rs ih =>
    show (applyRecords rs (recordStep s r)).totalProjects = s.totalProjects
    rw [ih]
    rfl

theorem applyRecords_successful (l : List RecordInput) (s : Stats) :
    (applyRecords l s).successful = s.successful + (l.filter fun r => r.success).length := by
  induction l generalizing s with
  | nil => rfl
  | cons r rs ih =>
    show (applyRecords rs (recordStep s r)).successful = _
    rw [ih]
    by_cases h : r.success = true
    · simp [recordStep, Stats.recordResult, h, List.filter_cons]
      omega
    · simp [recordStep, Stats.recordResult, h, List.filter_cons]

theorem applyRecords_failed (l : List RecordInput) (s : Stats) :
    (applyRecords l s).failed = s.failed + (l.filter fun r => !r.success).length := by
  induction l generalizing s with
  | nil => rfl
  | cons r rs ih =>
    show (applyRecords rs (recordStep s r)).failed = _
    rw [ih]
    by_cases h : r.success = true
    · simp [recordStep, Stats.recordResult, h, List.filter_cons]
    · simp [recordStep, Stats.recordResult, h, List.filter_cons]
      omega

theorem applyRecords_vulnerabilities (l : List RecordInput) (s : Stats) :
    (applyRecords l s).vulnerabilities =
      s.vulnerabilities + ((l.map fun r => r.vulnCount).filter fun v => v > 0).sum := by
  induction l generalizing s with
  | nil => simp [applyRecords]
  | cons r rs ih =>
    show (applyRecords rs (recordStep s r)).vulnerabilities = _
    rw [ih]
    by_cases h : r.vulnCount > 0
    · simp [recordStep, Stats.recordResult, h, List.filter_cons]
      omega
    · simp [recordStep, Stats.recordResult, h, List.filter_cons]

theorem applyRecords_totalDuration (l : List RecordInput) (s : Stats) :
    (applyRecords l s).totalDuration =
      s.totalDuration + (l.map fun r => r.durationNanos).sum := by
  induction l generalizing s with
  | nil => rfl
  | cons r rs ih =>
    show (applyRecords rs (recordStep s r)).totalDuration = _
    rw [ih]
    show s.totalDuration + r.durationNanos + _ = _
    rw [List.map_cons, List.sum_cons]
    omega

theorem applyRecords_maxDuration (l : List RecordInput) (s : Stats) :
    (applyRecords l s).maxDuration = (l.map fun r => r.durationNanos).foldl max s.maxDuration := by
  induction l generalizing s with
  | nil => rfl
  | cons r rs ih =>
    show (applyRecords rs (recordStep s r)).maxDuration = _
    rw [ih, List.map_cons, List.foldl_cons]
    rw [show (recordStep s r).maxDuration =
      (if s.maxDuration < r.durationNanos then r.durationNanos else s.maxDuration) from rfl]
    rw [ite_lt_eq_max]

theorem applyRecords_minDuration (l : List RecordInput) (s : Stats) :
    (applyRecords l s).minDuration = (l.map fun r => r.durationNanos).foldl min s.minDuration := by
  induction l generalizing s with
  | nil => rfl
  | cons r rs ih =>
    show (applyRecords rs (recordStep s r)).minDuration = _
    rw [ih, List.map_cons, List.foldl_cons]
    rw [show (recordStep s r).minDuration =
      (if r.durationNanos < s.minDuration then r.durationNanos else s.minDuration) from rfl]
    rw [ite_lt_eq_min]

/-- `successful + failed` grows by exactly one per recorded result. -/
theorem applyRecords_success_add_failed (l : List RecordInput) (s : Stats) :
    (applyRecords l s).successful + (applyRecords l s).failed =
      s.successful + s.failed + l.length := by
  rw [applyRecords_successful, applyRecords_failed]
  have h := List.length_eq_length_filter_add (l := l) fun r => r.success
  omega

/-- A left fold with `min` is a lower bound of its initial value. -/
theorem foldl_min_le_init (a : Nat) (l : List Nat) : l.foldl min a ≤ a := by
  induction l generalizing a with
  | nil => exact Nat.le_refl a
  | cons x xs ih => exact Nat.le_trans (ih (min a x)) (Nat.min_le_left a x)

/-- A left fold with `min` is a lower bound of every list element. -/
theorem foldl_min_le_mem (l : List Nat) (x : Nat) (hx : x ∈ l) :
    ∀ a, l.foldl min a ≤ x := by
  induction hx with
  | head ys =>
    intro a
    exact Nat.le_trans (foldl_min_le_init (min a x) ys) (Nat.min_le_right a x)
  | tail y hmem ih =>
    intro a
    exact ih (min a y)

/-- A left fold with `max` is an upper bound of its initial value. -/
theorem init_le_foldl_max (a : Nat) (l : List Nat) : a ≤ l.foldl max a := by
  induction l generalizing a with
  | nil => exact Nat.le_refl a
  | cons x xs ih => exact Nat.le_trans (Nat.le_max_left a x) (ih (max a x))

/-- A left fold with `max` is an upper bound of every list element. -/
theorem mem_le_foldl_max (l : List Nat) (x : Nat) (hx : x ∈ l) :
    ∀ a, x ≤ l.foldl max a := by
  induction hx with
  | head ys =>
    intro a
    exact Nat.le_trans (Nat.le_max_right a x) (init_le_foldl_max (max a x) ys)
  | tail y hmem ih =>
    intro a
    exact ih (max a y)

/-- C8: after at least one `recordResult`, the recorded durations satisfy
`minDuration ≤ avgDuration ≤ maxDuration`, where the average reported by
`print` is `totalDuration / (successful + failed)`; and with zero results
the min/max durations are omitted from the report rather than shown as 0. -/
theorem c8_min_avg_max (total : Nat) (l : List RecordInput) (hl : l ≠ []) :
    ((applyRecords l (Stats.initStats total)).printReport.avgDuration =
        (applyRecords l (Stats.initStats total)).totalDuration /
          ((applyRecords l (Stats.initStats total)).successful +
            (applyRecords l (Stats.initStats total)).failed) ∧
      (applyRecords l (Stats.initStats total)).minDuration ≤
        (applyRecords l (Stats.initStats total)).printReport.avgDuration ∧
      (applyRecords l (Stats.initStats total)).printReport.avgDuration ≤
        (applyRecords l (Stats.initStats total)).maxDuration ∧
      (applyRecords l (Stats.initStats total)).printReport.minMax =
        some ((applyRecords l (Stats.initStats total)).minDuration,
          (applyRecords l (Stats.initStats total)).maxDuration)) ∧
    (Stats.initStats total).printReport.minMax = none := by
  have hsf : (applyRecords l (Stats.initStats total)).successful +
      (applyRecords l (Stats.initStats total)).failed = l.length := by
    rw [applyRecords_success_add_failed]
    simp [Stats.initStats]
  have hn : 0 < l.length := List.length_pos.mpr hl
  have hpos : 0 < (applyRecords l (Stats.initStats total)).successful +
      (applyRecords l (Stats.initStats total)).failed := by
    rw [hsf]
    exact hn
  have havg : (applyRecords l (Stats.initStats total)).printReport.avgDuration =
      (applyRecords l (Stats.initStats total)).totalDuration /
        ((applyRecords l (Stats.initStats total)).successful +
          (applyRecords l (Stats.initStats total)).failed) := by
    unfold Stats.printReport
    rw [if_pos hpos]
  have htd : (applyRecords l (Stats.initStats total)).totalDuration =
      (l.map fun r => r.durationNanos).sum := by
    rw [applyRecords_totalDuration]
    simp [Stats.initStats]
  have hmx : (applyRecords l (Stats.initStats total)).maxDuration =
      (l.map fun r => r.durationNanos).foldl max 0 := by
    rw [applyRecords_maxDuration]
    rfl
  have hmn : (applyRecords l (Stats.initStats total)).minDuration =
      (l.map fun r => r.durationNanos).foldl min hourNanos := by
    rw [applyRecords_minDuration]
    rfl
  have hlen : (l.map fun r => r.durationNanos).length = l.length := List.length_map l _
  refine ⟨⟨havg, ?_, ?_, ?_⟩, ?_⟩
  · rw [havg, htd, hmn, hsf]
    rw [Nat.le_div_iff_mul_le hn]
    have hlb : ∀ x ∈ l.map fun r => r.durationNanos,
        (l.map fun r => r.durationNanos).foldl min hourNanos ≤ x :=
      fun x hx => foldl_min_le_mem _ x hx hourNanos
    have hsum := List.card_nsmul_le_sum (l.map fun r => r.durationNanos) _ hlb
    rw [smul_eq_mul, hlen] at hsum
    calc (l.map fun r => r.durationNanos).foldl min hourNanos * l.length =
        l.length * (l.map fun r => r.durationNanos).foldl min hourNanos := Nat.mul_comm _ _
      _ ≤ (l.map fun r => r.durationNanos).sum := hsum
  · rw [havg, htd, hmx, hsf]
    have hub : ∀ x ∈ l.map fun r => r.durationNanos,
        x ≤ (l.map fun r => r.durationNanos).foldl max 0 :=
      fun x hx => mem_le_foldl_max _ x hx 0
    have hsum := List.sum_le_card_nsmul (l.map fun r => r.durationNanos) _ hub
    rw [smul_eq_mul, hlen] at hsum
    exact Nat.div_le_of_le_mul hsum
  · simp [Stats.printReport, hpos]
  · simp [Stats.printReport, Stats.initStats]

/-- Witness for C8 at a single recorded result of 5 ns. -/
theorem c8_min_avg_max_witness :
    ((applyRecords [⟨true, 5, 0⟩] (Stats.initStats 1)).printReport.avgDuration =
        (applyRecords [⟨true, 5, 0⟩] (Stats.initStats 1)).totalDuration /
          ((applyRecords [⟨true, 5, 0⟩] (Stats.initStats 1)).successful +
            (applyRecords [⟨true, 5, 0⟩] (Stats.initStats 1)).failed) ∧
      (applyRecords [⟨true, 5, 0⟩] (Stats.initStats 1)).minDuration ≤
        (applyRecords [⟨true, 5, 0⟩] (Stats.initStats 1)).printReport.avgDuration ∧
      (applyRecords [⟨true, 5, 0⟩] (Stats.initStats 1)).printReport.avgDuration ≤
        (applyRecords [⟨true, 5, 0⟩] (Stats.initStats 1)).maxDuration ∧
      (applyRecords [⟨true, 5, 0⟩] (Stats.initStats 1)).printReport.minMax =
        some ((applyRecords [⟨true, 5, 0⟩] (Stats.initStats 1)).minDuration,
          (applyRecords [⟨true, 5, 0⟩] (Stats.initStats 1)).maxDuration)) ∧
    (Stats.initStats 1).printReport.minMax = none :=
  c8_min_avg_max 1 [⟨true, 5, 0⟩] (by decide)

/-- Two `Stats` values with equal fields are equal. -/
theorem stats_eq_of_fields (s t : Stats) (h1 : s.totalProjects = t.totalProjects)
    (h2 : s.successful = t.successful) (h3 : s.failed = t.failed)
    (h4 : s.vulnerabilities = t.vulnerabilities) (h5 : s.totalDuration = t.totalDuration)
    (h6 : s.maxDuration = t.maxDuration) (h7 : s.minDuration = t.minDuration) : s = t := by
  cases s
  cases t
  simp_all

/-- The final `Stats` of any `recordResult` sequence equal the
single-threaded reference computation. -/
theorem applyRecords_eq_referenceStats (total : Nat) (l : List RecordInput) :
    applyRecords l (Stats.initStats total) = referenceStats total l := by
  refine stats_eq_of_fields _ _ ?_ ?_ ?_ ?_ ?_ ?_ ?_
  · rw [applyRecords_totalProjects]
    rfl
  · rw [applyRecords_successful]
    simp [Stats.initStats, referenceStats]
  · rw [applyRecords_failed]
    simp [Stats.initStats, referenceStats]
  · rw [applyRecords_vulnerabilities]
    simp [Stats.initStats, referenceStats]
  · rw [applyRecords_totalDuration]
    simp [Stats.initStats, referenceStats]
  · rw [applyRecords_maxDuration]
    rfl
  · rw [applyRecords_minDuration]
    rfl

/-- The reference computation is invariant under permutation of the
inputs. -/
theorem referenceStats_perm (total : Nat) (l l2 : List RecordInput) (hperm : l.Perm l2) :
    referenceStats total l = referenceStats total l2 := by
  refine stats_eq_of_fields _ _ rfl ?_ ?_ ?_ ?_ ?_ ?_
  · exact (hperm.filter _).length_eq
  · exact (hperm.filter _).length_eq
  · exact ((hperm.map _).filter _).sum_eq
  · exact (hperm.map _).sum_eq
  · exact @List.Perm.foldl_eq _ _ max _ _ ⟨fun a b c => Max.right_comm a b c⟩ (hperm.map _) 0
  · exact @List.Perm.foldl_eq _ _ min _ _ ⟨fun a b c => min_right_comm a b c⟩ (hperm.map _)
      hourNanos

/-- C9 counterexample: the claim says the final `minDuration` is the minimum
of the recorded durations, but a single recorded duration of two hours
(7200000000000 ns) leaves `minDuration` at the one-hour initialization
sentinel (3600000000000 ns), not at the true minimum 7200000000000 ns. -/
theorem c9_counterexample :
    (applyRecords [⟨true, 7200000000000, 0⟩] (Stats.initStats 1)).minDuration =
        3600000000000 ∧
      ¬(applyRecords [⟨true, 7200000000000, 0⟩] (Stats.initStats 1)).minDuration =
        7200000000000 := by
  constructor
  · decide
  · decide

/-- C9 amended: applying `recordResult` once per input, in any order, yields
the single-threaded reference computation — outcome counts, duration sum,
duration maximum, sum of positive vulnerability counts — with `minDuration`
the minimum of the durations *and the one-hour initialization sentinel*
(hence the true duration minimum whenever some duration is under one hour);
in particular 5 successes with durations 1–5 s give `successful = 5`,
`failed = 0`, `min = 1s`, `max = 5s`, `avg = 3s`. -/
theorem c9_stats_match_reference (total : Nat) (l l2 : List RecordInput)
    (hperm : l.Perm l2) :
    applyRecords l (Stats.initStats total) = referenceStats total l ∧
      applyRecords l2 (Stats.initStats total) = applyRecords l (Stats.initStats total) ∧
      applyRecords
          [⟨true, 1000000000, 0⟩, ⟨true, 2000000000, 0⟩, ⟨true, 3000000000, 0⟩,
            ⟨true, 4000000000, 0⟩, ⟨true, 5000000000, 0⟩] (Stats.initStats 5) =
        ⟨5, 5, 0, 0, 15000000000, 5000000000, 1000000000⟩ ∧
      (applyRecords
          [⟨true, 1000000000, 0⟩, ⟨true, 2000000000, 0⟩, ⟨true, 3000000000, 0⟩,
            ⟨true, 4000000000, 0⟩, ⟨true, 5000000000, 0⟩]
          (Stats.initStats 5)).printReport.avgDuration = 3000000000 := by
  refine ⟨applyRecords_eq_referenceStats total l, ?_, by decide, by decide⟩
  rw [applyRecords_eq_referenceStats total l, applyRecords_eq_referenceStats total l2]
  exact referenceStats_perm total l2 l hperm.symm

/-- Witness for C9's amended claim: the 5-success example recorded in
reversed arrival order still matches the reference computation. -/
theorem c9_stats_match_reference_witness :
    applyRecords
        [⟨true, 1000000000, 0⟩, ⟨true, 2000000000, 0⟩, ⟨true, 3000000000, 0⟩,
          ⟨true, 4000000000, 0⟩, ⟨true, 5000000000, 0⟩] (Stats.initStats 5) =
      referenceStats 5
        [⟨true, 1000000000, 0⟩, ⟨true, 2000000000, 0⟩, ⟨true, 3000000000, 0⟩,
          ⟨true, 4000000000, 0⟩, ⟨true, 5000000000, 0⟩] ∧
      applyRecords
          [⟨true, 5000000000, 0⟩, ⟨true, 4000000000, 0⟩, ⟨true, 3000000000, 0⟩,
            ⟨true, 2000000000, 0⟩, ⟨true, 1000000000, 0⟩] (Stats.initStats 5) =
        applyRecords
          [⟨true, 1000000000, 0⟩, ⟨true, 2000000000, 0⟩, ⟨true, 3000000000, 0⟩,
            ⟨true, 4000000000, 0⟩, ⟨true, 5000000000, 0⟩] (Stats.initStats 5) :=
  ⟨(c9_stats_match_reference 5
      [⟨true, 1000000000, 0⟩, ⟨true, 2000000000, 0⟩, ⟨true, 3000000000, 0⟩,
        ⟨true, 4000000000, 0⟩, ⟨true, 5000000000, 0⟩]
      [⟨true, 5000000000, 0⟩, ⟨true, 4000000000, 0⟩, ⟨true, 3000000000, 0⟩,
        ⟨true, 2000000000, 0⟩, ⟨true, 1000000000, 0⟩] (by decide)).1,
   (c9_stats_match_reference 5
      [⟨true, 1000000000, 0⟩, ⟨true, 2000000000, 0⟩, ⟨true, 3000000000, 0⟩,
        ⟨true, 4000000000, 0⟩, ⟨true, 5000000000, 0⟩]
      [⟨true, 5000000000, 0⟩, ⟨true, 4000000000, 0⟩, ⟨true, 3000000000, 0⟩,
        ⟨true, 2000000000, 0⟩, ⟨true, 1000000000, 0⟩] (by decide)).2.1⟩

/-- The collector loop, from any accumulator: it records every arriving
result once into the stats and appends it to the collected list. -/
theorem collect_loop (arrival : List ScanResult) (s : Stats) (acc : List ScanResult) :
    arrival.foldl (fun acc r => (recordStep acc.1 (resultRecord r), acc.2 ++ [r])) (s, acc) =
      (applyRecords (arrival.map resultRecord) s, acc ++ arrival) := by
  induction arrival generalizing s acc with
  | nil => simp [applyRecords]
  | cons r rs ih =>
    rw [List.foldl_cons, ih]
    simp [applyRecords]

/-- `collectResults` records each arriving result exactly once and collects
the arrival sequence itself. -/
theorem collectResults_eq (arrival : List ScanResult) (s : Stats) :
    collectResults arrival s = (applyRecords (arrival.map resultRecord) s, arrival) := by
  unfold collectResults
  rw [collect_loop]
  rfl

/-- C7: with `M` distinct resolved projects, any concurrency `1 ≤ N ≤ M`,
no cancellation (every project completes with exactly one result, arriving
in some completion order), the collector keeps `successful + failed` equal
to the number of results received so far — never above `totalProjects` —
and finally collects exactly `M` results, none sharing a project, with
`successful + failed = M`. -/
theorem c7_collector_invariants (projects : List String) (M N : Nat)
    (outcome : String → ScanResult) (arrival : List ScanResult)
    (hM : projects.length = M) (hnodup : projects.Nodup)
    (hN : 1 ≤ N ∧ N ≤ M)
    (houtcome : ∀ p, (outcome p).project = p)
    (harrival : arrival.Perm (projects.map outcome)) :
    (∀ k,
      (collectResults (arrival.take k) (Stats.initStats M)).1.successful +
          (collectResults (arrival.take k) (Stats.initStats M)).1.failed = min k M ∧
      (collectResults (arrival.take k) (Stats.initStats M)).1.successful +
          (collectResults (arrival.take k) (Stats.initStats M)).1.failed ≤
        (collectResults (arrival.take k) (Stats.initStats M)).1.totalProjects) ∧
    (collectResults arrival (Stats.initStats M)).2.length = M ∧
    ((collectResults arrival (Stats.initStats M)).2.map fun r => r.project).Nodup ∧
    (collectResults arrival (Stats.initStats M)).1.successful +
        (collectResults arrival (Stats.initStats M)).1.failed = M := by
  have hlen : arrival.length = M := by
    rw [harrival.length_eq, List.length_map, hM]
  have hsum : ∀ l : List ScanResult,
      (collectResults l (Stats.initStats M)).1.successful +
        (collectResults l (Stats.initStats M)).1.failed = l.length := by
    intro l
    rw [collectResults_eq]
    show (applyRecords (l.map resultRecord) (Stats.initStats M)).successful + _ = _
    rw [applyRecords_success_add_failed]
    simp [Stats.initStats]
  refine ⟨fun k => ⟨?_, ?_⟩, ?_, ?_, ?_⟩
  · rw [hsum, List.length_take, hlen]
  · rw [hsum]
    have htp : (collectResults (arrival.take k) (Stats.initStats M)).1.totalProjects = M := by
      rw [collectResults_eq]
      show (applyRecords _ (Stats.initStats M)).totalProjects = M
      rw [applyRecords_totalProjects]
      rfl
    rw [htp, List.length_take, hlen]
    exact Nat.min_le_right k M
  · rw [collectResults_eq]
    exact hlen
  · rw [collectResults_eq]
    show (arrival.map fun r => r.project).Nodup
    have hproj : (projects.map outcome).map (fun r => r.project) = projects := by
      rw [List.map_map]
      have h1 : projects.map ((fun r : ScanResult => r.project) ∘ outcome) =
          projects.map fun p => p :=
        List.map_congr_left fun p _ => houtcome p
      rw [h1]
      exact List.map_id' projects
    have hpermproj : (arrival.map fun r => r.project).Perm projects := by
      rw [← hproj]
      exact harrival.map _
    exact hpermproj.nodup_iff.mpr hnodup
  · rw [hsum, hlen]

/-- Witness for C7: two projects, concurrency 1, results arriving in
reversed completion order. -/
theorem c7_collector_invariants_witness :
    (collectResults [⟨"b", true, 1000000000, 0⟩, ⟨"a", true, 1000000000, 0⟩]
        (Stats.initStats 2)).2.length = 2 ∧
      (collectResults [⟨"b", true, 1000000000, 0⟩, ⟨"a", true, 1000000000, 0⟩]
          (Stats.initStats 2)).1.successful +
        (collectResults [⟨"b", true, 1000000000, 0⟩, ⟨"a", true, 1000000000, 0⟩]
          (Stats.initStats 2)).1.failed = 2 ∧
      (collectResults ([⟨"b", true, 1000000000, 0⟩, ⟨"a", true, 1000000000, 0⟩].take 1)
          (Stats.initStats 2)).1.successful +
        (collectResults ([⟨"b", true, 1000000000, 0⟩, ⟨"a", true, 1000000000, 0⟩].take 1)
          (Stats.initStats 2)).1.failed = min 1 2 :=
  ⟨(c7_collector_invariants ["a", "b"] 2 1 (fun p => ⟨p, true, 1000000000, 0⟩)
      [⟨"b", true, 1000000000, 0⟩, ⟨"a", true, 1000000000, 0⟩] rfl (by decide)
      ⟨Nat.le_refl 1, by decide⟩ (fun p => rfl) (by decide)).2.1,
   (c7_collector_invariants ["a", "b"] 2 1 (fun p => ⟨p, true, 1000000000, 0⟩)
      [⟨"b", true, 1000000000, 0⟩, ⟨"a", true, 1000000000, 0⟩] rfl (by decide)
      ⟨Nat.le_refl 1, by decide⟩ (fun p => rfl) (by decide)).2.2.2,
   ((c7_collector_invariants ["a", "b"] 2 1 (fun p => ⟨p, true, 1000000000, 0⟩)
      [⟨"b", true, 1000000000, 0⟩, ⟨"a", true, 1000000000, 0⟩] rfl (by decide)
      ⟨Nat.le_refl 1, by decide⟩ (fun p => rfl) (by decide)).1 1).1⟩

/-- C10: the run exits 0 exactly when resolution succeeded and every
dispatched job succeeded, exits 1 exactly when resolution failed fatally or
some job failed, and the exit code is unchanged by errors of the
notification collaborators (they only add log lines). -/
theorem c10_exit_codes (resolution : Except String (List String))
    (outcome : String → ScanResult) (e1 e2 e3 f1 f2 f3 : Option String) :
    ((runCommandExit resolution outcome e1 e2 e3).1 = 0 ↔
      ∃ projects, resolution = .ok projects ∧ ∀ p ∈ projects, (outcome p).success = true) ∧
    ((runCommandExit resolution outcome e1 e2 e3).1 = 1 ↔
      ((∃ e, resolution = .error e) ∨
        ∃ projects, resolution = .ok projects ∧ ∃ p ∈ projects, (outcome p).success = false)) ∧
    (runCommandExit resolution outcome e1 e2 e3).1 =
      (runCommandExit resolution outcome f1 f2 f3).1 := by
  cases resolution with
  | error e =>
    refine ⟨?_, ?_, rfl⟩
    · simp [runCommandExit]
    · simp [runCommandExit]
  | ok projects =>
    have hfailed : ((collectResults (projects.map outcome)
        (Stats.initStats projects.length)).1).failed =
        (((projects.map outcome).map resultRecord).filter fun r => !r.success).length := by
      rw [collectResults_eq]
      show (applyRecords _ (Stats.initStats projects.length)).failed = _
      rw [applyRecords_failed]
      simp [Stats.initStats]
    have hiff : 0 < ((collectResults (projects.map outcome)
        (Stats.initStats projects.length)).1).failed ↔
        ∃ p ∈ projects, (outcome p).success = false := by
      rw [hfailed, List.length_pos_iff_exists_mem]
      constructor
      · rintro ⟨r, hr⟩
        rw [List.mem_filter] at hr
        obtain ⟨hmem, hfail⟩ := hr
        rw [List.map_map, List.mem_map] at hmem
        obtain ⟨p, hp, hpr⟩ := hmem
        refine ⟨p, hp, ?_⟩
        have hs : r.success = false := by simpa using hfail
        have hcomp : ((resultRecord ∘ outcome) p).success = false := by
          rw [hpr]
          exact hs
        exact hcomp
      · rintro ⟨p, hp, hfail⟩
        refine ⟨resultRecord (outcome p), ?_⟩
        rw [List.mem_filter, List.map_map]
        constructor
        · exact List.mem_map.mpr ⟨p, hp, rfl⟩
        · simp [resultRecord, hfail]
    have hdef : ∀ g1 g2 g3 : Option String,
        (runCommandExit (.ok projects) outcome g1 g2 g3).1 =
          if 0 < ((collectResults (projects.map outcome)
              (Stats.initStats projects.length)).1).failed then 1 else 0 := by
      intro g1 g2 g3
      rfl
    refine ⟨?_, ?_, ?_⟩
    · rw [hdef]
      by_cases h : 0 < ((collectResults (projects.map outcome)
          (Stats.initStats projects.length)).1).failed
      · rw [if_pos h]
        obtain ⟨p, hp, hfail⟩ := hiff.mp h
        constructor
        · intro hcon
          exact absurd hcon (by decide)
        · rintro ⟨projects2, hpr2, hall⟩
          have : projects2 = projects := by
            injection hpr2 with h2
            exact h2.symm
          subst this
          rw [hall p hp] at hfail
          exact absurd hfail (by decide)
      · rw [if_neg h]
        constructor
        · intro _
          refine ⟨projects, rfl, fun p hp => ?_⟩
          by_cases hs : (outcome p).success = true
          · exact hs
          · exact absurd (hiff.mpr ⟨p, hp, Bool.not_eq_true _ ▸ hs⟩) h
        · intro _
          rfl
    · rw [hdef]
      by_cases h : 0 < ((collectResults (projects.map outcome)
          (Stats.initStats projects.length)).1).failed
      · rw [if_pos h]
        constructor
        · intro _
          exact Or.inr ⟨projects, rfl, hiff.mp h⟩
        · intro _
          rfl
      · rw [if_neg h]
        constructor
        · intro hcon
          exact absurd hcon (by decide)
        · rintro (⟨e, he⟩ | ⟨projects2, hpr2, p, hp, hfail⟩)
          · exact absurd he (by simp)
          · have : projects2 = projects := by
              injection hpr2 with h2
              exact h2.symm
            subst this
            exact absurd (hiff.mpr ⟨p, hp, hfail⟩) h
    · rw [hdef, hdef]

end FossaNx
